import Mathlib

/-!
Verification development for the IP-to-country attribution core of
apache-access-summarizer (src/app/src/apache-access-summarizer.py).

The Python source is shallowly embedded: strings are processed as lists of
characters with structural recursion, Python ints are Nat (IPv4 quantities
are below 2^32 by construction), exceptions become Option/Except, and the
two bounded retry loops are embedded with an explicit fuel argument that is
provably never exhausted for the hard-coded attempt ceiling of 3.
-/

namespace ApacheAccessSummarizer

/-! ### Character and string helpers

The Python code manipulates `str` values via split, strip, upper, lower.
These are embedded over `List Char` so that every definition is structural
and kernel-computable. -/

/-- Split a list of characters on every occurrence of the separator
character, mirroring Python str.split(sep) for a one-character separator:
the empty string yields one empty field, and adjacent separators yield
empty fields. -/
def splitOnChar (sep : Char) : List Char → List (List Char)
  | [] => [[]]
  | c :: cs =>
    match splitOnChar sep cs with
    | [] => if c = sep then [[], []] else [[c]]
    | g :: gs => if c = sep then [] :: g :: gs else (c :: g) :: gs

/-- Python str.partition(sep) for a one-character separator: split at the
first occurrence only.  Returns the part before, whether the separator was
found, and the part after. -/
def partitionChar (sep : Char) : List Char → List Char × Bool × List Char
  | [] => ([], false, [])
  | c :: cs =>
    if c = sep then ([], true, cs)
    else
      let (pre, found, post) := partitionChar sep cs
      (c :: pre, found, post)

/-- Whitespace as stripped by Python str.strip(): space, tab, newline,
carriage return, vertical tab, form feed. -/
def isPySpace (c : Char) : Bool :=
  c = ' ' || c = '\t' || c = '\n' || c = '\r' || c = '\x0b' || c = '\x0c'

/-- Python str.strip(): drop whitespace from both ends. -/
def pyStrip (cs : List Char) : List Char :=
  ((cs.dropWhile isPySpace).reverse.dropWhile isPySpace).reverse

/-- Python str.upper() restricted to ASCII, as used on two-letter country
codes. -/
def pyUpper (cs : List Char) : List Char := cs.map Char.toUpper

/-- Python str.lower() restricted to ASCII, as used on country codes read
from the CSV. -/
def pyLower (cs : List Char) : List Char := cs.map Char.toLower

/-- Value of an ASCII decimal digit. -/
def digitVal (c : Char) : Nat := c.toNat - 48

/-- Decimal value of a string of ASCII digits, mirroring int(s, 10) on a
digit-only string. -/
def decimalVal (cs : List Char) : Nat := cs.foldl (fun a c => a * 10 + digitVal c) 0

/-- Hexadecimal digit test, mirroring membership in the Python ipaddress
module constant _HEX_DIGITS = frozenset(hexdigits). -/
def isHexDigitChar (c : Char) : Bool :=
  c.isDigit || ('a' ≤ c && c ≤ 'f') || ('A' ≤ c && c ≤ 'F')

/-- Value of an ASCII hexadecimal digit. -/
def hexDigitVal (c : Char) : Nat :=
  if c.isDigit then c.toNat - 48
  else if 'a' ≤ c && c ≤ 'f' then c.toNat - 87
  else c.toNat - 55

/-- Hexadecimal value of a string of hex digits, mirroring int(s, 16) on a
hex-digit-only string. -/
def hexVal (cs : List Char) : Nat := cs.foldl (fun a c => a * 16 + hexDigitVal c) 0

/-- Lowercase hex digit character for a nibble value below 16. -/
def hexDigitChar (n : Nat) : Char :=
  if n < 10 then Char.ofNat (48 + n) else Char.ofNat (87 + n)

/-- Lowercase hexadecimal rendering of a value below 2^16, mirroring the
Python format "%x" as applied in the ipaddress module to the two 16-bit
halves of an embedded IPv4 address (both are masked with 0xFFFF before
formatting, so four nibbles always suffice). -/
def hexFmt16 (n : Nat) : List Char :=
  let nibbles := [n / 4096 % 16, n / 256 % 16, n / 16 % 16, n % 16]
  let stripped := nibbles.dropWhile (· = 0)
  (if stripped = [] then [0] else stripped).map hexDigitChar

/-! ### Embedding of the Python ipaddress module (the parts the program
calls: ip_address, IPv4Address, IPv6Address, IPv4Network with strict=False,
netmask arithmetic, and the containment test used by `in`). -/

/-- All-ones 32-bit value, the ipaddress module constant
_ALL_ONES = (2 ** IPV4LENGTH) - 1. -/
def ALL_ONES : Nat := 2 ^ 32 - 1

/-- IPv4Address._parse_octet: an octet must be 1 to 3 ASCII decimal digits,
without leading zeros unless it is exactly "0", and its value must be at
most 255. -/
def parse_octet (cs : List Char) : Option Nat :=
  if cs.isEmpty then none
  else if ¬ cs.all Char.isDigit then none
  else if cs.length > 3 then none
  else if cs ≠ ['0'] ∧ cs.headD 'x' = '0' then none
  else
    let n := decimalVal cs
    if n > 255 then none else some n

/-- Map a parser over all fields, failing if any field fails, mirroring the
per-octet (or per-hextet) exception propagation in the ipaddress module. -/
def parseAll (f : List Char → Option Nat) : List (List Char) → Option (List Nat)
  | [] => some []
  | g :: gs =>
    match f g, parseAll f gs with
    | some v, some vs => some (v :: vs)
    | _, _ => none

/-- IPv4Address._ip_int_from_string: reject the empty string, split on ".",
require exactly 4 octets, parse each octet, and combine big-endian. -/
def ipv4_int_from_string (cs : List Char) : Option Nat :=
  if cs.isEmpty then none
  else
    let octets := splitOnChar '.' cs
    if octets.length ≠ 4 then none
    else
      match parseAll parse_octet octets with
      | some [a, b, c, d] => some (((a * 256 + b) * 256 + c) * 256 + d)
      | _ => none

/-- IPv4Address constructed from a string: a "/" anywhere is rejected
before the dotted-quad parse. -/
def IPv4Address_from_string (cs : List Char) : Option Nat :=
  if cs.any (· = '/') then none
  else ipv4_int_from_string cs

/-- IPv6Address._parse_hextet: only hex digits (the empty string passes the
character test but fails int(s, 16)), at most 4 characters. -/
def parse_hextet (cs : List Char) : Option Nat :=
  if ¬ cs.all isHexDigitChar then none
  else if cs.length > 4 then none
  else if cs.isEmpty then none
  else some (hexVal cs)

/-- Fold the parsed hextets into the address accumulator exactly as the
ipaddress module does: ip_int <<= 16; ip_int |= hextet. -/
def foldHextets (acc : Nat) (hs : List Nat) : Nat :=
  hs.foldl (fun a h => (a <<< 16) ||| h) acc

/-- IPv6Address._ip_int_from_string: split on ":", require at least 3
parts, rewrite a dotted IPv4 suffix into two hextets, require at most 9
parts, locate at most one interior empty part ("::"), validate empty
endpoint parts against it, and combine the hextets around the zero-filled
gap. -/
def ipv6_int_from_string (cs : List Char) : Option Nat :=
  if cs.isEmpty then none
  else
    let parts0 := splitOnChar ':' cs
    if parts0.length < 3 then none
    else
      let withSuffix : Option (List (List Char)) :=
        if (parts0.getLastD []).any (· = '.') then
          match IPv4Address_from_string (parts0.getLastD []) with
          | none => none
          | some v4 =>
            some (parts0.dropLast ++
              [hexFmt16 ((v4 >>> 16) &&& 65535), hexFmt16 (v4 &&& 65535)])
        else some parts0
      match withSuffix with
      | none => none
      | some parts =>
        let n := parts.length
        if n > 9 then none
        else
          let skips := (List.range n).filter
            (fun i => 0 < i ∧ i + 1 < n ∧ (parts.getD i ['x']).isEmpty)
          match skips with
          | [] =>
            if n ≠ 8 then none
            else if (parts.getD 0 ['x']).isEmpty then none
            else if (parts.getLastD ['x']).isEmpty then none
            else (parseAll parse_hextet parts).map (foldHextets 0)
          | [skipIndex] =>
            let partsHi0 := skipIndex
            let partsLo0 := n - skipIndex - 1
            let headEmpty := (parts.getD 0 ['x']).isEmpty
            let lastEmpty := (parts.getLastD ['x']).isEmpty
            let partsHi := if headEmpty then partsHi0 - 1 else partsHi0
            let partsLo := if lastEmpty then partsLo0 - 1 else partsLo0
            if headEmpty ∧ partsHi ≠ 0 then none
            else if lastEmpty ∧ partsLo ≠ 0 then none
            else
              let partsSkipped := 8 - (partsHi + partsLo)
              if partsHi + partsLo > 7 then none
              else
                match parseAll parse_hextet (parts.take partsHi),
                      parseAll parse_hextet (parts.drop (n - partsLo)) with
                | some hi, some lo =>
                  some (foldHextets ((foldHextets 0 hi) <<< (16 * partsSkipped)) lo)
                | _, _ => none
          | _ => none

/-- IPv6Address constructed from a string: reject "/", split off a "%"
scope id (which must be nonempty and without a further "%" when the
separator is present), and parse the remaining address text. -/
def IPv6Address_from_string (cs : List Char) : Option Nat :=
  if cs.any (· = '/') then none
  else
    let (addr, sep, scope) := partitionChar '%' cs
    if sep ∧ (scope.isEmpty ∨ scope.any (· = '%')) then none
    else ipv6_int_from_string addr

/-- Result of the ipaddress.ip_address factory: an IPv4 or an IPv6 address
with its integer value. -/
inductive IPAddr : Type
  | v4 (ip : Nat)
  | v6 (ip : Nat)
deriving DecidableEq, Repr

/-- int(ip_obj): the integer value of a parsed address. -/
def IPAddr.toInt : IPAddr → Nat
  | .v4 n => n
  | .v6 n => n

/-- ipaddress.ip_address on a string: try IPv4 first, then IPv6, and fail
(ValueError) if neither parses. -/
def ip_address (s : String) : Option IPAddr :=
  match IPv4Address_from_string s.data with
  | some n => some (.v4 n)
  | none =>
    match IPv6Address_from_string s.data with
    | some n => some (.v6 n)
    | none => none

/-- IPv4Network data as the program uses it: the (possibly normalized)
network address and the prefix length.  The netmask is derived from the
prefix length. -/
structure IPv4NetworkT : Type where
  network_address : Nat
  prefixlen : Nat
deriving DecidableEq, Repr

/-- IPv4Network._ip_int_from_prefix: _ALL_ONES ^ (_ALL_ONES >> prefixlen). -/
def ip_int_from_prefixlen (p : Nat) : Nat := ALL_ONES ^^^ (ALL_ONES >>> p)

/-- int(net.netmask) for an embedded network. -/
def IPv4NetworkT.netmaskInt (net : IPv4NetworkT) : Nat :=
  ip_int_from_prefixlen net.prefixlen

/-- int(net.hostmask): int(netmask) ^ _ALL_ONES. -/
def IPv4NetworkT.hostmaskInt (net : IPv4NetworkT) : Nat :=
  net.netmaskInt ^^^ ALL_ONES

/-- int(net.broadcast_address): int(network_address) | int(hostmask).
This is the end address of the range in the sense of the specification. -/
def IPv4NetworkT.broadcastInt (net : IPv4NetworkT) : Nat :=
  net.network_address ||| net.hostmaskInt

/-- Python int.bit_length() via an explicit fuel argument (40 bits cover
every value below 2^32 that the program feeds in). -/
def bitLengthGo : Nat → Nat → Nat
  | 0, _ => 0
  | f + 1, n => if n = 0 then 0 else bitLengthGo f (n / 2) + 1

/-- Python int.bit_length() for values below 2^40. -/
def bitLength (n : Nat) : Nat := bitLengthGo 40 n

/-- ipaddress._count_righthand_zero_bits(number, bits):
min(bits, (~number & (number-1)).bit_length()) with 0 mapped to bits.  The
Python complement ~number is taken here within 32 bits, which is faithful
because the argument is an IPv4 integer below 2^32 and is masked with
(number - 1), itself below 2^32. -/
def count_righthand_zero_bits (number : Nat) (bits : Nat) : Nat :=
  if number = 0 then bits
  else min bits (bitLength ((ALL_ONES ^^^ number) &&& (number - 1)))

/-- IPv4Network._prefix_from_ip_int: derive a prefix length from a
dotted-quad netmask integer, requiring the bits above the trailing zeros
to be all ones. -/
def prefix_from_ip_int (ip_int : Nat) : Option Nat :=
  let trailing_zeroes := count_righthand_zero_bits ip_int 32
  let prefixlen := 32 - trailing_zeroes
  let leading_ones := ip_int >>> trailing_zeroes
  let all_ones := (1 <<< prefixlen) - 1
  if leading_ones ≠ all_ones then none else some prefixlen

/-- IPv4Network._prefix_from_prefix_string: the mask text must be ASCII
decimal digits and its value at most the maximum prefix length 32. -/
def prefix_from_prefix_string (cs : List Char) : Option Nat :=
  if ¬ (cs.all Char.isDigit) ∨ cs.isEmpty then none
  else
    let p := decimalVal cs
    if p > 32 then none else some p

/-- IPv4Network._make_netmask on a string argument: first try a prefix
length in decimal form, then a netmask or hostmask in dotted-decimal form
(the hostmask attempt inverts the bits within 32 bits, as ip_int is below
2^32). -/
def make_netmask (cs : List Char) : Option Nat :=
  match prefix_from_prefix_string cs with
  | some p => some p
  | none =>
    match ipv4_int_from_string cs with
    | none => none
    | some ip_int =>
      match prefix_from_ip_int ip_int with
      | some p => some p
      | none => prefix_from_ip_int (ip_int ^^^ ALL_ONES)

/-- Body of IPv4Network.__init__ once the address text and prefix length
are known, with strict=False: if host bits are set, mask them off to get
the canonical network address. -/
def mkNetwork (packed : Nat) (p : Nat) : IPv4NetworkT :=
  if packed &&& ip_int_from_prefixlen p ≠ packed then
    ⟨packed &&& ip_int_from_prefixlen p, p⟩
  else ⟨packed, p⟩

/-- IPv4Network(cidr, strict=False) from a string: split off at most one
"/" (the whole value with the maximum prefix length 32 when absent), parse
the address part as an IPv4 address, the mask part via _make_netmask, and
normalize host bits. -/
def IPv4Network_from_string (cs : List Char) : Option IPv4NetworkT :=
  let addr := splitOnChar '/' cs
  match addr with
  | [a] =>
    (IPv4Address_from_string a).map (fun packed => mkNetwork packed 32)
  | [a, m] =>
    match IPv4Address_from_string a, make_netmask m with
    | some packed, some p => some (mkNetwork packed p)
    | _, _ => none
  | _ => none

/-- The membership test ip_obj in network (ipaddress._BaseNetwork
.__contains__): False on an address/network version mismatch, otherwise
int(ip) & int(netmask) == int(network_address). -/
def ipInNetwork (ip : IPAddr) (net : IPv4NetworkT) : Bool :=
  match ip with
  | .v6 _ => false
  | .v4 n => n &&& net.netmaskInt == net.network_address

/-! ### bisect.bisect_right

The stdlib binary search loop, embedded with a fuel argument: each
iteration strictly shrinks hi - lo, so fuel hi - lo suffices and the
top-level wrapper passes the list length. -/

/-- The while-loop of bisect.bisect_right(a, x, 0, len(a)): while lo < hi,
cut at mid = (lo + hi) / 2; if x < a[mid] set hi = mid else lo = mid + 1;
return lo. -/
def bisectRightGo (a : List Nat) (x : Nat) : Nat → Nat → Nat → Nat
  | 0, lo, _ => lo
  | fuel + 1, lo, hi =>
    if lo < hi then
      let mid := (lo + hi) / 2
      if x < a.getD mid 0 then bisectRightGo a x fuel lo mid
      else bisectRightGo a x fuel (mid + 1) hi
    else lo

/-- bisect.bisect_right(a, x): the insertion point for x in a that comes
after any run of elements equal to x. -/
def bisect_right (a : List Nat) (x : Nat) : Nat :=
  bisectRightGo a x a.length 0 a.length

/-! ### CountryCidrMapper -/

/-- One element of NETWORK_MAP: the tuple
(int(network.network_address), network, code.upper()). -/
def NetworkEntry : Type := Nat × IPv4NetworkT × List Char

instance : DecidableEq NetworkEntry := by
  unfold NetworkEntry
  infer_instance

instance : Inhabited NetworkEntry := ⟨(0, ⟨0, 0⟩, [])⟩

/-- Sort key of a NETWORK_MAP entry: its first component
(key=lambda x: x[0]). -/
def entryKey (e : NetworkEntry) : Nat := e.1

/-- Country code of a NETWORK_MAP entry: its third component. -/
def entryCode (e : NetworkEntry) : List Char := e.2.2

/-- Network of a NETWORK_MAP entry: its second component. -/
def entryNet (e : NetworkEntry) : IPv4NetworkT := e.2.1

/-- Insert an entry after every element whose key is at most its own,
keeping earlier elements first.  Folding this over a list embeds the
stable Python builtin sorted(xs, key=lambda x: x[0]). -/
def insertByKey (e : NetworkEntry) : List NetworkEntry → List NetworkEntry
  | [] => [e]
  | a :: as => if entryKey a ≤ entryKey e then a :: insertByKey e as else e :: a :: as

/-- sorted(all_networks, key=lambda x: x[0]): a stable sort by the first
tuple component, embedded as repeated ordered insertion. -/
def pySortedByKey (l : List NetworkEntry) : List NetworkEntry :=
  l.foldl (fun acc e => insertByKey e acc) []

/-- The bulk archive: the member names (as given by TarFile) paired with
the decoded text content of each member. -/
def TarArchive : Type := List (String × String)

/-- TarFile.extractfile(name) followed by read().decode("utf-8"): look the
member up by name; a missing member raises KeyError, embedded as none. -/
def extractfile (archive : TarArchive) (name : String) : Option String :=
  (archive.find? (fun m => m.1 == name)).map (fun m => m.2)

/-- CountryCidrMapper.download_ip_blocks: extract "./<code>.zone"; on
KeyError return []; otherwise strip the content and split it on newline. -/
def download_ip_blocks (archive : TarArchive) (code : String) : List (List Char) :=
  match extractfile archive ("./" ++ code ++ ".zone") with
  | none => []
  | some content => splitOnChar '\n' (pyStrip content.data)

/-- The inner per-country loop of CountryCidrMapper.load_country_data: for
each raw CIDR line, strip it, skip it if blank, parse it as
IPv4Network(cidr, strict=False), skip it if parsing fails, and otherwise
emit the tuple (int(network.network_address), network, code.upper()). -/
def networksOfCidrs (code : String) (cidrs : List (List Char)) : List NetworkEntry :=
  cidrs.filterMap (fun c =>
    let cidr := pyStrip c
    if cidr.isEmpty then none
    else
      (IPv4Network_from_string cidr).map
        (fun network => (network.network_address, network, pyUpper code.data)))

/-- CountryCidrMapper.load_country_data after the archive download: for
every country code, fetch its CIDR lines (an empty result contributes
nothing), accumulate all parsed networks, and sort them by start
address. -/
def load_country_data (archive : TarArchive) (country_codes : List String) :
    List NetworkEntry :=
  pySortedByKey (country_codes.flatMap (fun code =>
    let cidrs := download_ip_blocks archive code
    if cidrs.isEmpty then [] else networksOfCidrs code cidrs))

/-- The candidate scan of get_country_from_ip: for j in
range(max(0, i - 2), i), return the country code of the first candidate
network that contains the address. -/
def scanCandidates (m : List NetworkEntry) (ip_obj : IPAddr) : List Nat → Option (List Char)
  | [] => none
  | j :: js =>
    let e := m.getD j default
    if ipInNetwork ip_obj (entryNet e) then some (entryCode e)
    else scanCandidates m ip_obj js

/-- The list of candidate indices range(max(0, i - 2), i).  Subtraction on
Nat truncates at zero exactly as max(0, i - 2) does on Python ints. -/
def candidateIndices (i : Nat) : List Nat := List.range' (i - 2) (i - (i - 2))

/-- CountryCidrMapper.get_country_from_ip: parse the address (ValueError
becomes the INVALID IP sentinel), rebuild the start-address list, locate
the insertion point with bisect_right, scan the at most two candidate
networks before it, and fall through to the UNKNOWN sentinel. -/
def get_country_from_ip (m : List NetworkEntry) (ip : String) : String :=
  match ip_address ip with
  | none => "INVALID IP"
  | some ip_obj =>
    let ip_int := ip_obj.toInt
    let network_start_addresses := m.map (fun item => item.1)
    let i := bisect_right network_start_addresses ip_int
    match scanCandidates m ip_obj (candidateIndices i) with
    | some country_code => String.mk country_code
    | none => "UNKNOWN"

/-- The mapper object: its only attribute relevant after construction is
NETWORK_MAP. -/
structure CountryCidrMapper : Type where
  NETWORK_MAP : List NetworkEntry
deriving DecidableEq

/-- CountryCidrMapper.__init__ given the downloaded archive: the map is
assigned exactly once, by load_country_data. -/
def CountryCidrMapper.init (archive : TarArchive) (country_codes : List String) :
    CountryCidrMapper :=
  ⟨load_country_data archive country_codes⟩

/-- The get_country_from_ip method as a state transformer on the mapper
object: the method reads self.NETWORK_MAP and writes no attribute, so the
resulting object state accompanies the returned string. -/
def CountryCidrMapper.get_country_from_ip_st (self : CountryCidrMapper)
    (ip : String) : CountryCidrMapper × String :=
  (self, get_country_from_ip self.NETWORK_MAP ip)

/-! ### The retry loops and get_iso_country_codes -/

/-- A Python exception as the two loaders distinguish them: a
requests.exceptions.RequestException, or anything else. -/
inductive PyExc : Type
  | requestExc (msg : String)
  | otherExc (msg : String)
deriving DecidableEq, Repr

/-- The retry loop that wraps both network fetches (attempt = 0; loop:
attempt += 1; try the operation and break; on failure re-raise when
attempt >= 3, else retry immediately).  The operation is modelled by the
outcome of each numbered attempt; the loop returns the final outcome with
the final value of the attempt counter.  The fuel argument makes the
recursion structural; fuel 3 is never exhausted because the loop re-raises
at attempt 3. -/
def retryGo {α : Type} (op : Nat → Except PyExc α) :
    Nat → Nat → Except PyExc α × Nat
  | fuel, attempt =>
    let attempt' := attempt + 1
    match op attempt' with
    | .ok v => (.ok v, attempt')
    | .error e =>
      if 3 ≤ attempt' then (.error e, attempt')
      else
        match fuel with
        | 0 => (.error e, attempt')
        | f + 1 => retryGo op f attempt'

/-- The retry wrapper: run the loop from attempt counter 0. -/
def retryRequest {α : Type} (op : Nat → Except PyExc α) : Except PyExc α × Nat :=
  retryGo op 3 0

/-- csv.DictReader restricted to the plain comma-separated shape of the
country-list resource (no quoting): the first line names the columns, each
further line is one row, and a row is the list of column/value pairs. -/
def csvRows (text : String) : List (List (String × String)) :=
  match (splitOnChar '\n' text.data).map (splitOnChar ',') with
  | [] => []
  | header :: rows =>
    rows.map (fun row => (header.zip row).map
      (fun f => (String.mk f.1, String.mk f.2)))

/-- Python "Code" in row for a DictReader row. -/
def rowHasCode (row : List (String × String)) : Bool :=
  row.any (fun f => f.1 == "Code")

/-- Python row["Code"] for a DictReader row that has the column. -/
def rowCode (row : List (String × String)) : String :=
  ((row.find? (fun f => f.1 == "Code")).map (fun f => f.2)).getD ""

/-- get_iso_country_codes: retry the download up to 3 times; on final
failure re-raise, catching a RequestException into an empty list (any
other exception propagates); on success read the Code column of each row
that has one and lowercase it. -/
def get_iso_country_codes (op : Nat → Except PyExc String) :
    Except PyExc (List String) :=
  match (retryRequest op).1 with
  | .error (.requestExc _) => .ok []
  | .error e => .error e
  | .ok text =>
    .ok (((csvRows text).filter rowHasCode).map
      (fun row => String.mk (pyLower (rowCode row).data)))

/-! ### Specification-side predicates and concrete fixtures -/

/-- Well-formedness of an embedded network, as established by parsing: the
prefix length is at most 32, the network address is a 32-bit value, and the
network address is canonical (its host bits are zero). -/
def WFNet (net : IPv4NetworkT) : Prop :=
  net.prefixlen ≤ 32 ∧ net.network_address < 2 ^ 32 ∧
    net.network_address &&& net.netmaskInt = net.network_address

instance : DecidablePred WFNet := fun net => by
  unfold WFNet
  infer_instance

/-- Well-formedness of a NETWORK_MAP entry: its key is the network address
of its network, and the network is well-formed.  Every entry built by
load_country_data has this shape. -/
def WFEntry (e : NetworkEntry) : Prop :=
  entryKey e = (entryNet e).network_address ∧ WFNet (entryNet e)

instance : DecidablePred WFEntry := fun e => by
  unfold WFEntry
  infer_instance

/-- The containment predicate of the specification:
startAddress <= ip <= endAddress, with the end address read off the
network's broadcast address. -/
def entryContains (e : NetworkEntry) (n : Nat) : Prop :=
  entryKey e ≤ n ∧ n ≤ (entryNet e).broadcastInt

instance : ∀ e n, Decidable (entryContains e n) := fun e n => by
  unfold entryContains
  infer_instance

/-- Key comparison between NETWORK_MAP entries: ascending start address. -/
def keyLe (a b : NetworkEntry) : Prop := entryKey a ≤ entryKey b

/-- Separation of an index: every earlier range ends strictly before every
later range starts.  This is the specification's assumption that loaded
ranges are sorted and do not overlap. -/
def Separated (m : List NetworkEntry) : Prop :=
  ∀ k, k < m.length → ∀ j, j < k →
    (entryNet (m.getD j default)).broadcastInt < entryKey (m.getD k default)

instance : DecidablePred Separated := fun m => by
  unfold Separated
  infer_instance

/-- The archive of the specification scenario: US gets 1.0.0.0/24 and CA
gets 2.0.0.0/24. -/
def usCaArchive : TarArchive :=
  [("./us.zone", "1.0.0.0/24\n"), ("./ca.zone", "2.0.0.0/24\n")]

/-- The index of the specification scenario. -/
def usCaMap : List NetworkEntry := load_country_data usCaArchive ["us", "ca"]

/-- An archive whose wide AA range is followed by two narrower ranges of
other countries, so that an address inside only the AA range sits more
than two slots past every candidate the resolver checks. -/
def nestedArchive : TarArchive :=
  [("./aa.zone", "1.0.0.0/8\n"), ("./bb.zone", "1.1.0.0/24\n"),
   ("./cc.zone", "1.2.0.0/24\n")]

/-- The index built from nestedArchive. -/
def nestedMap : List NetworkEntry :=
  load_country_data nestedArchive ["aa", "bb", "cc"]

/-- An archive with two ranges that share a start address, AA wide and BB
narrow, so that both candidate slots of a query inside BB contain the
queried address. -/
def overlapArchive : TarArchive :=
  [("./aa.zone", "1.0.0.0/8\n"), ("./bb.zone", "1.0.0.0/24\n")]

/-- The index built from overlapArchive. -/
def overlapMap : List NetworkEntry :=
  load_country_data overlapArchive ["aa", "bb"]

/-! ### Arithmetic facts about netmasks, containment and broadcast -/

theorem ALL_ONES_testBit (i : Nat) : ALL_ONES.testBit i = decide (i < 32) := by
  unfold ALL_ONES
  exact Nat.testBit_two_pow_sub_one 32 i

theorem netmask_testBit {p : Nat} (i : Nat) :
    (ip_int_from_prefixlen p).testBit i =
      (decide (32 - p ≤ i) && decide (i < 32)) := by
  simp only [ip_int_from_prefixlen, Nat.testBit_xor, Nat.testBit_shiftRight,
    ALL_ONES_testBit]
  by_cases h1 : i < 32 <;> by_cases h2 : p + i < 32 <;>
    simp [h1, h2] <;> omega

theorem and_netmask {p n : Nat} (hn : n < 2 ^ 32) :
    n &&& ip_int_from_prefixlen p = 2 ^ (32 - p) * (n / 2 ^ (32 - p)) := by
  apply Nat.eq_of_testBit_eq
  intro i
  have hdiv : n / 2 ^ (32 - p) = n >>> (32 - p) :=
    (Nat.shiftRight_eq_div_pow n (32 - p)).symm
  rw [Nat.testBit_and, netmask_testBit, Nat.testBit_mul_pow_two, hdiv,
    Nat.testBit_shiftRight]
  by_cases h1 : 32 - p ≤ i
  · by_cases h2 : i < 32
    · have : 32 - p + (i - (32 - p)) = i := by omega
      simp [h1, h2, Nat.le_of_lt, this, ge_iff_le]
    · have hb : ∀ j, 32 ≤ j → n.testBit j = false := by
        intro j hj
        apply Nat.testBit_lt_two_pow
        calc n < 2 ^ 32 := hn
          _ ≤ 2 ^ j := Nat.pow_le_pow_right (by omega) hj
      simp [h1, h2, hb i (by omega), hb (32 - p + (i - (32 - p))) (by omega),
        ge_iff_le]
  · simp [h1, ge_iff_le]

theorem hostmask_eq {p : Nat} :
    ip_int_from_prefixlen p ^^^ ALL_ONES = 2 ^ (32 - p) - 1 := by
  apply Nat.eq_of_testBit_eq
  intro i
  rw [Nat.testBit_xor, netmask_testBit, ALL_ONES_testBit,
    Nat.testBit_two_pow_sub_one]
  by_cases h1 : 32 - p ≤ i <;> by_cases h2 : i < 32 <;>
    simp [h1, h2] <;> omega

theorem parse_octet_le {cs : List Char} {n : Nat} (h : parse_octet cs = some n) :
    n ≤ 255 := by
  simp only [parse_octet] at h
  split at h
  · exact absurd h (by simp)
  · split at h
    · exact absurd h (by simp)
    · split at h
      · exact absurd h (by simp)
      · split at h
        · exact absurd h (by simp)
        · split at h
          · exact absurd h (by simp)
          · simp only [Option.some.injEq] at h
            omega

theorem parseAll_octet_le {gs : List (List Char)} {vs : List Nat}
    (h : parseAll parse_octet gs = some vs) : ∀ v ∈ vs, v ≤ 255 := by
  induction gs generalizing vs with
  | nil =>
    simp only [parseAll, Option.some.injEq] at h
    subst h
    simp
  | cons g gs ih =>
    simp only [parseAll] at h
    split at h
    next v' vs' hg hgs =>
      simp only [Option.some.injEq] at h
      subst h
      intro v hv
      rcases List.mem_cons.mp hv with h1 | h2
      · subst h1; exact parse_octet_le hg
      · exact ih hgs v h2
    next => exact absurd h (by simp)

theorem ipv4_int_lt {cs : List Char} {n : Nat}
    (h : ipv4_int_from_string cs = some n) : n < 2 ^ 32 := by
  simp only [ipv4_int_from_string] at h
  split at h
  · exact absurd h (by simp)
  · split at h
    · exact absurd h (by simp)
    · split at h
      next a b c d hall =>
        have hle := parseAll_octet_le hall
        have ha : a ≤ 255 := hle a (by simp)
        have hb : b ≤ 255 := hle b (by simp)
        have hc : c ≤ 255 := hle c (by simp)
        have hd : d ≤ 255 := hle d (by simp)
        simp only [Option.some.injEq] at h
        omega
      next => exact absurd h (by simp)

theorem IPv4Address_lt {cs : List Char} {n : Nat}
    (h : IPv4Address_from_string cs = some n) : n < 2 ^ 32 := by
  unfold IPv4Address_from_string at h
  split at h
  · exact absurd h (by simp)
  · exact ipv4_int_lt h

theorem prefix_from_ip_int_le {x p : Nat} (h : prefix_from_ip_int x = some p) :
    p ≤ 32 := by
  simp only [prefix_from_ip_int] at h
  split at h
  · exact absurd h (by simp)
  · simp only [Option.some.injEq] at h
    omega

theorem make_netmask_le {cs : List Char} {p : Nat} (h : make_netmask cs = some p) :
    p ≤ 32 := by
  simp only [make_netmask] at h
  split at h
  next q hq =>
    simp only [Option.some.injEq] at h
    subst h
    simp only [prefix_from_prefix_string] at hq
    split at hq
    · exact absurd hq (by simp)
    · split at hq
      · exact absurd hq (by simp)
      · simp only [Option.some.injEq] at hq
        omega
  next =>
    split at h
    · exact absurd h (by simp)
    · split at h
      next q hq =>
        simp only [Option.some.injEq] at h
        subst h
        exact prefix_from_ip_int_le hq
      next => exact prefix_from_ip_int_le h

theorem mkNetwork_wf {packed p : Nat} (hpacked : packed < 2 ^ 32) (hp : p ≤ 32) :
    WFNet (mkNetwork packed p) := by
  unfold mkNetwork WFNet IPv4NetworkT.netmaskInt
  split
  next hne =>
    refine ⟨hp, ?_, ?_⟩
    · exact Nat.lt_of_le_of_lt Nat.and_le_left hpacked
    · simp only
      rw [Nat.and_assoc, Nat.and_self]
  next hne =>
    refine ⟨hp, hpacked, ?_⟩
    simpa using Decidable.of_not_not hne

theorem parse_network_wf {cs : List Char} {net : IPv4NetworkT}
    (h : IPv4Network_from_string cs = some net) : WFNet net := by
  simp only [IPv4Network_from_string] at h
  split at h
  next a =>
    rcases Option.map_eq_some'.mp h with ⟨packed, hpacked, hnet⟩
    subst hnet
    exact mkNetwork_wf (IPv4Address_lt hpacked) (by omega)
  next a m =>
    split at h
    next packed p hpacked hp =>
      simp only [Option.some.injEq] at h
      subst h
      exact mkNetwork_wf (IPv4Address_lt hpacked) (make_netmask_le hp)
    next => exact absurd h (by simp)
  next => exact absurd h (by simp)

/-- The canonical network address is an exact multiple of the host-range
size. -/
theorem network_address_multiple {net : IPv4NetworkT} (hwf : WFNet net) :
    net.network_address =
      2 ^ (32 - net.prefixlen) * (net.network_address / 2 ^ (32 - net.prefixlen)) := by
  obtain ⟨hp, hlt, hcanon⟩ := hwf
  calc net.network_address = net.network_address &&& net.netmaskInt := hcanon.symm
    _ = 2 ^ (32 - net.prefixlen) * (net.network_address / 2 ^ (32 - net.prefixlen)) :=
      and_netmask hlt

/-- The broadcast address computed by the code equals the start address
plus the host-range size minus one: the end address of the specification. -/
theorem broadcastInt_eq {net : IPv4NetworkT} (hwf : WFNet net) :
    net.broadcastInt = net.network_address + (2 ^ (32 - net.prefixlen) - 1) := by
  unfold IPv4NetworkT.broadcastInt IPv4NetworkT.hostmaskInt IPv4NetworkT.netmaskInt
  rw [hostmask_eq]
  conv_lhs => rw [network_address_multiple hwf]
  rw [← Nat.mul_add_lt_is_or (by exact Nat.sub_lt (Nat.two_pow_pos _) Nat.one_pos) _]
  rw [← network_address_multiple hwf]

/-- The containment test of the code agrees with the interval containment
predicate of the specification on well-formed networks and 32-bit
addresses. -/
theorem ipInNetwork_iff {net : IPv4NetworkT} {n : Nat} (hwf : WFNet net)
    (hn : n < 2 ^ 32) :
    ipInNetwork (.v4 n) net = true ↔
      net.network_address ≤ n ∧ n ≤ net.broadcastInt := by
  obtain ⟨hp, hlt, hcanon⟩ := hwf
  have hmask : n &&& net.netmaskInt =
      2 ^ (32 - net.prefixlen) * (n / 2 ^ (32 - net.prefixlen)) :=
    and_netmask hn
  have hmul := network_address_multiple ⟨hp, hlt, hcanon⟩
  have hbc := broadcastInt_eq ⟨hp, hlt, hcanon⟩
  have hpos : 0 < 2 ^ (32 - net.prefixlen) := Nat.two_pow_pos _
  have hmod := Nat.div_add_mod n (2 ^ (32 - net.prefixlen))
  have hmodlt := Nat.mod_lt n hpos
  simp only [ipInNetwork, beq_iff_eq, hmask, hbc]
  constructor
  · intro heq
    constructor
    · omega
    · omega
  · intro ⟨hlo, hhi⟩
    have hlo2 : net.network_address / 2 ^ (32 - net.prefixlen) *
        2 ^ (32 - net.prefixlen) ≤ n := by
      rw [Nat.mul_comm]
      omega
    have hhi2 : n < (net.network_address / 2 ^ (32 - net.prefixlen) + 1) *
        2 ^ (32 - net.prefixlen) := by
      rw [Nat.add_mul, Nat.one_mul, Nat.mul_comm]
      omega
    have hdiv := Nat.div_eq_of_lt_le hlo2 hhi2
    rw [hdiv]
    omega

/-- A start address never exceeds its broadcast address. -/
theorem network_address_le_broadcastInt {net : IPv4NetworkT} (hwf : WFNet net) :
    net.network_address ≤ net.broadcastInt := by
  rw [broadcastInt_eq hwf]
  omega

/-! ### Facts about bisect_right -/

theorem bisectRightGo_bounds (a : List Nat) (x : Nat) :
    ∀ fuel lo hi, lo ≤ hi → lo ≤ bisectRightGo a x fuel lo hi ∧
      bisectRightGo a x fuel lo hi ≤ hi := by
  intro fuel
  induction fuel with
  | zero => intro lo hi h; exact ⟨Nat.le_refl lo, h⟩
  | succ f ih =>
    intro lo hi h
    simp only [bisectRightGo]
    split
    next hlt =>
      split
      next =>
        have := ih lo ((lo + hi) / 2) (by omega)
        omega
      next =>
        have := ih ((lo + hi) / 2 + 1) hi (by omega)
        omega
    next => exact ⟨Nat.le_refl lo, h⟩

theorem bisect_right_le_length (a : List Nat) (x : Nat) :
    bisect_right a x ≤ a.length :=
  (bisectRightGo_bounds a x a.length 0 a.length (Nat.zero_le _)).2

/-- If K is a cut point for x in a (everything strictly before K is at
most x, everything at K or later is greater than x), then the binary
search lands exactly on K.  No sortedness hypothesis is needed beyond the
cut itself. -/
theorem bisectRightGo_eq_of_cut {a : List Nat} {x K : Nat}
    (hbelow : ∀ j, j < K → a.getD j 0 ≤ x)
    (habove : ∀ j, K ≤ j → j < a.length → x < a.getD j 0) :
    ∀ fuel lo hi, hi - lo ≤ fuel → lo ≤ K → K ≤ hi → hi ≤ a.length →
      bisectRightGo a x fuel lo hi = K := by
  intro fuel
  induction fuel with
  | zero =>
    intro lo hi hfuel hloK hKhi hlen
    simp only [bisectRightGo]
    omega
  | succ f ih =>
    intro lo hi hfuel hloK hKhi hlen
    simp only [bisectRightGo]
    split
    next hlt =>
      split
      next hxlt =>
        have hmidK : K ≤ (lo + hi) / 2 := by
          by_contra hcon
          have := hbelow ((lo + hi) / 2) (by omega)
          omega
        exact ih lo ((lo + hi) / 2) (by omega) hloK hmidK (by omega)
      next hxge =>
        have hKmid : (lo + hi) / 2 < K := by
          by_contra hcon
          have := habove ((lo + hi) / 2) (by omega) (by omega)
          omega
        exact ih ((lo + hi) / 2 + 1) hi (by omega) (by omega) hKhi hlen
    next => omega

theorem bisect_right_eq_of_cut {a : List Nat} {x K : Nat} (hK : K ≤ a.length)
    (hbelow : ∀ j, j < K → a.getD j 0 ≤ x)
    (habove : ∀ j, K ≤ j → j < a.length → x < a.getD j 0) :
    bisect_right a x = K :=
  bisectRightGo_eq_of_cut hbelow habove a.length 0 a.length (by omega)
    (Nat.zero_le K) hK (Nat.le_refl _)

/-! ### Facts about the stable sort -/

theorem mem_insertByKey {e x : NetworkEntry} :
    ∀ {l : List NetworkEntry}, x ∈ insertByKey e l ↔ x = e ∨ x ∈ l := by
  intro l
  induction l with
  | nil => simp [insertByKey]
  | cons a as ih =>
    simp only [insertByKey]
    split
    · simp only [List.mem_cons, ih]
      tauto
    · simp only [List.mem_cons]

theorem pairwise_insertByKey {e : NetworkEntry} {l : List NetworkEntry}
    (h : l.Pairwise keyLe) : (insertByKey e l).Pairwise keyLe := by
  induction l with
  | nil => simp [insertByKey, List.pairwise_cons]
  | cons a as ih =>
    rcases List.pairwise_cons.mp h with ⟨ha, has⟩
    simp only [insertByKey]
    split
    next hle =>
      refine List.pairwise_cons.mpr ⟨?_, ih has⟩
      intro x hx
      rcases mem_insertByKey.mp hx with h1 | h2
      · subst h1; exact hle
      · exact ha x h2
    next hgt =>
      refine List.pairwise_cons.mpr ⟨?_, h⟩
      intro x hx
      rcases List.mem_cons.mp hx with h1 | h2
      · subst h1
        exact Nat.le_of_lt (Nat.lt_of_not_le hgt)
      · exact Nat.le_trans (Nat.le_of_lt (Nat.lt_of_not_le hgt)) (ha x h2)

theorem pairwise_foldl_insertByKey (l : List NetworkEntry) :
    ∀ acc : List NetworkEntry, acc.Pairwise keyLe →
      (l.foldl (fun acc e => insertByKey e acc) acc).Pairwise keyLe := by
  induction l with
  | nil => intro acc h; exact h
  | cons e es ih =>
    intro acc h
    exact ih (insertByKey e acc) (pairwise_insertByKey h)

theorem pySortedByKey_pairwise (l : List NetworkEntry) :
    (pySortedByKey l).Pairwise keyLe :=
  pairwise_foldl_insertByKey l [] List.Pairwise.nil

/-! ### Facts about the candidate scan -/

theorem scanCandidates_none {m : List NetworkEntry} {ip : IPAddr}
    {js : List Nat}
    (h : ∀ j ∈ js, ipInNetwork ip (entryNet (m.getD j default)) = false) :
    scanCandidates m ip js = none := by
  induction js with
  | nil => rfl
  | cons j js ih =>
    simp only [scanCandidates]
    rw [h j (by simp)]
    simp only [Bool.false_eq_true, if_false]
    exact ih (fun j' hj' => h j' (List.mem_cons_of_mem j hj'))

theorem scanCandidates_v6 {m : List NetworkEntry} {x : Nat} {js : List Nat} :
    scanCandidates m (.v6 x) js = none :=
  scanCandidates_none (fun _ _ => rfl)

theorem scanCandidates_cons_of_true {m : List NetworkEntry} {ip : IPAddr}
    {j : Nat} {js : List Nat}
    (h : ipInNetwork ip (entryNet (m.getD j default)) = true) :
    scanCandidates m ip (j :: js) = some (entryCode (m.getD j default)) := by
  simp only [scanCandidates]
  rw [if_pos h]

theorem scanCandidates_cons_of_false {m : List NetworkEntry} {ip : IPAddr}
    {j : Nat} {js : List Nat}
    (h : ipInNetwork ip (entryNet (m.getD j default)) = false) :
    scanCandidates m ip (j :: js) = scanCandidates m ip js := by
  have hne : ¬ ipInNetwork ip (entryNet (m.getD j default)) = true := by
    rw [h]
    exact Bool.false_ne_true
  simp only [scanCandidates]
  rw [if_neg hne]

/-- Entries of the map fetched by the scan with an in-range index are
members of the map. -/
theorem getD_mem_of_lt {m : List NetworkEntry} {j : Nat} (h : j < m.length) :
    m.getD j default ∈ m := by
  rw [List.getD_eq_getElem?_getD, List.getElem?_eq_getElem h]
  exact List.getElem_mem h

/-- The start-address list rebuilt per query, read at an in-range index. -/
theorem getD_map_key {m : List NetworkEntry} {j : Nat} (h : j < m.length) :
    (m.map (fun item => item.1)).getD j 0 = entryKey (m.getD j default) := by
  rw [List.getD_eq_getElem?_getD, List.getD_eq_getElem?_getD,
    List.getElem?_eq_getElem (by simpa using h),
    List.getElem?_eq_getElem h]
  simp [entryKey]

/-! ### Facts about the resolver -/

theorem ip_address_v4_lt {s : String} {n : Nat}
    (h : ip_address s = some (.v4 n)) : n < 2 ^ 32 := by
  unfold ip_address at h
  split at h
  next x hx =>
    simp only [Option.some.injEq, IPAddr.v4.injEq] at h
    subst h
    exact IPv4Address_lt hx
  next =>
    split at h
    · exact absurd h (by simp)
    · exact absurd h (by simp)

theorem candidateIndices_zero : candidateIndices 0 = [] := rfl

theorem candidateIndices_one : candidateIndices 1 = [0] := rfl

theorem candidateIndices_of_two_le {i : Nat} (h : 2 ≤ i) :
    candidateIndices i = [i - 2, i - 1] := by
  unfold candidateIndices
  have h1 : i - (i - 2) = 2 := by omega
  rw [h1]
  simp [List.range']
  omega

theorem mem_candidateIndices_lt {j i : Nat} (h : j ∈ candidateIndices i) :
    j < i := by
  unfold candidateIndices at h
  rw [List.mem_range'] at h
  rcases h with ⟨k, hk, hj⟩
  omega

/-- The resolver on a successfully parsed IPv4 address reduces to the
candidate scan around the binary-search insertion point. -/
theorem get_country_from_ip_v4 {m : List NetworkEntry} {s : String} {n i : Nat}
    (hparse : ip_address s = some (.v4 n))
    (hi : bisect_right (m.map (fun item => item.1)) n = i) :
    get_country_from_ip m s =
      match scanCandidates m (.v4 n) (candidateIndices i) with
      | some country_code => String.mk country_code
      | none => "UNKNOWN" := by
  simp only [get_country_from_ip, hparse, IPAddr.toInt, hi]

/-! ### Facts about the retry loop -/

theorem retryRequest_three_errors {α : Type} {op : Nat → Except PyExc α}
    {e1 e2 e3 : PyExc} (h1 : op 1 = .error e1) (h2 : op 2 = .error e2)
    (h3 : op 3 = .error e3) : retryRequest op = (.error e3, 3) := by
  simp [retryRequest, retryGo, h1, h2, h3]

theorem retryRequest_errors_then_ok {α : Type} {op : Nat → Except PyExc α}
    {e1 e2 : PyExc} {v : α} (h1 : op 1 = .error e1) (h2 : op 2 = .error e2)
    (h3 : op 3 = .ok v) : retryRequest op = (.ok v, 3) := by
  simp [retryRequest, retryGo, h1, h2, h3]

theorem retryRequest_error_then_ok {α : Type} {op : Nat → Except PyExc α}
    {e1 : PyExc} {v : α} (h1 : op 1 = .error e1) (h2 : op 2 = .ok v) :
    retryRequest op = (.ok v, 2) := by
  simp [retryRequest, retryGo, h1, h2]

theorem retryRequest_ok {α : Type} {op : Nat → Except PyExc α} {v : α}
    (h1 : op 1 = .ok v) : retryRequest op = (.ok v, 1) := by
  simp [retryRequest, retryGo, h1]

/-! ### Claims -/

/-- C3 (counterexample): the claim says an IPv6 literal makes resolve
return "INVALID IP", but ip_address parses "::1" successfully as IPv6, so
on the specification's two-range index the resolver falls through all
IPv4-only containment checks and returns "UNKNOWN". -/
theorem claim_C3_counterexample :
    ip_address "::1" = some (.v6 1) ∧
    get_country_from_ip usCaMap "::1" = "UNKNOWN" ∧
    get_country_from_ip usCaMap "::1" ≠ "INVALID IP" := by
  decide

/-- C3 (amended): for every string that parses as neither IPv4 nor IPv6,
resolve returns "INVALID IP" on every index; a string that parses as an
IPv6 address instead returns "UNKNOWN" on every index, because containment
of an IPv6 address in an IPv4 network is always false. -/
theorem claim_C3_amended :
    (∀ (m : List NetworkEntry) (s : String), ip_address s = none →
      get_country_from_ip m s = "INVALID IP") ∧
    (∀ (m : List NetworkEntry) (s : String) (x : Nat),
      ip_address s = some (.v6 x) → get_country_from_ip m s = "UNKNOWN") := by
  constructor
  · intro m s h
    simp only [get_country_from_ip, h]
  · intro m s x h
    simp only [get_country_from_ip, h, scanCandidates_v6]

/-- C3 (witness): the malformed strings named by the claim all yield the
"INVALID IP" sentinel, via the amended theorem. -/
theorem claim_C3_witness :
    get_country_from_ip usCaMap "not-an-ip" = "INVALID IP" ∧
    get_country_from_ip usCaMap "1.2.3.4.5" = "INVALID IP" :=
  ⟨claim_C3_amended.1 usCaMap "not-an-ip" rfl,
   claim_C3_amended.1 usCaMap "1.2.3.4.5" rfl⟩

/-- C4: a valid IPv4 address outside every loaded range resolves to
"UNKNOWN": whatever the binary search returns, the scan only ever answers
with the code of a candidate whose containment test succeeds. -/
theorem claim_C4 (m : List NetworkEntry) (s : String) (n : Nat)
    (hwf : ∀ e ∈ m, WFEntry e)
    (hparse : ip_address s = some (.v4 n))
    (hout : ∀ e ∈ m, ¬ entryContains e n) :
    get_country_from_ip m s = "UNKNOWN" := by
  have hnone : scanCandidates m (.v4 n)
      (candidateIndices (bisect_right (m.map (fun item => item.1)) n)) = none := by
    apply scanCandidates_none
    intro j hj
    have hji := mem_candidateIndices_lt hj
    have hlen := bisect_right_le_length (m.map (fun item => item.1)) n
    rw [List.length_map] at hlen
    have hjlen : j < m.length := by omega
    have hmem := getD_mem_of_lt hjlen
    obtain ⟨hkey, hwfn⟩ := hwf _ hmem
    cases hb : ipInNetwork (.v4 n) (entryNet (m.getD j default)) with
    | false => rfl
    | true =>
      have hint := (ipInNetwork_iff hwfn (ip_address_v4_lt hparse)).mp hb
      have hc : entryContains (m.getD j default) n := by
        unfold entryContains
        refine ⟨?_, hint.2⟩
        rw [hkey]
        exact hint.1
      exact absurd hc (hout _ hmem)
  rw [get_country_from_ip_v4 hparse rfl, hnone]

/-- C4 (witness): the specification scenario: on the US/CA index, both
"3.0.0.1" and "1.0.1.1" lie outside every range and resolve to
"UNKNOWN". -/
theorem claim_C4_witness :
    (∀ e ∈ usCaMap, ¬ entryContains e 50331649) ∧
    get_country_from_ip usCaMap "3.0.0.1" = "UNKNOWN" ∧
    get_country_from_ip usCaMap "1.0.1.1" = "UNKNOWN" :=
  ⟨by decide,
   claim_C4 usCaMap "3.0.0.1" 50331649 (by decide) rfl (by decide),
   claim_C4 usCaMap "1.0.1.1" 16777473 (by decide) rfl (by decide)⟩

/-- C5: parsing "10.0.0.5/24" in non-strict mode masks the set host bits,
yielding the network 10.0.0.0/24 with end address 10.0.0.255, and for
every parsed network the broadcast (end) address is the start address plus
2^(32 - prefixLength) - 1. -/
theorem claim_C5 :
    (ipv4_int_from_string "10.0.0.0".data = some 167772160 ∧
     ipv4_int_from_string "10.0.0.255".data = some 167772415 ∧
     IPv4Network_from_string "10.0.0.5/24".data =
       some { network_address := 167772160, prefixlen := 24 } ∧
     IPv4NetworkT.broadcastInt { network_address := 167772160, prefixlen := 24 } =
       167772415) ∧
    (∀ (cs : List Char) (net : IPv4NetworkT), IPv4Network_from_string cs = some net →
      net.broadcastInt = net.network_address + (2 ^ (32 - net.prefixlen) - 1)) := by
  constructor
  · decide
  · intro cs net h
    exact broadcastInt_eq (parse_network_wf h)

/-- C5 (witness): the general end-address equation applied to the parsed
network of "10.0.0.5/24". -/
theorem claim_C5_witness :
    IPv4NetworkT.broadcastInt { network_address := 167772160, prefixlen := 24 } =
      167772160 + (2 ^ (32 - 24) - 1) :=
  claim_C5.2 "10.0.0.5/24".data { network_address := 167772160, prefixlen := 24 }
    (by decide)

/-- C6: the retry loop performs exactly 3 attempts of an always-failing
operation and ends with the error of the third attempt, and any success at
attempt 1, 2 or 3 is returned (together with the attempt counter at which
it occurred) without raising. -/
theorem claim_C6 :
    (∀ (α : Type) (op : Nat → Except PyExc α) (e1 e2 e3 : PyExc),
      op 1 = .error e1 → op 2 = .error e2 → op 3 = .error e3 →
      retryRequest op = (.error e3, 3)) ∧
    (∀ (α : Type) (op : Nat → Except PyExc α) (e1 e2 : PyExc) (v : α),
      op 1 = .error e1 → op 2 = .error e2 → op 3 = .ok v →
      retryRequest op = (.ok v, 3)) ∧
    (∀ (α : Type) (op : Nat → Except PyExc α) (e1 : PyExc) (v : α),
      op 1 = .error e1 → op 2 = .ok v → retryRequest op = (.ok v, 2)) ∧
    (∀ (α : Type) (op : Nat → Except PyExc α) (v : α),
      op 1 = .ok v → retryRequest op = (.ok v, 1)) :=
  ⟨fun _ _ _ _ _ h1 h2 h3 => retryRequest_three_errors h1 h2 h3,
   fun _ _ _ _ _ h1 h2 h3 => retryRequest_errors_then_ok h1 h2 h3,
   fun _ _ _ _ h1 h2 => retryRequest_error_then_ok h1 h2,
   fun _ _ _ h1 => retryRequest_ok h1⟩

/-- C6 (witness): an operation that always fails is attempted exactly 3
times and its final error surfaces; an operation that fails twice and then
succeeds returns its value at attempt 3. -/
theorem claim_C6_witness :
    retryRequest (fun _ => (.error (.otherExc "boom") : Except PyExc String)) =
      (.error (.otherExc "boom"), 3) ∧
    retryRequest (fun k =>
        if k < 3 then (.error (.requestExc "boom") : Except PyExc String)
        else .ok "body") = (.ok "body", 3) :=
  ⟨(claim_C6.1 String _ (.otherExc "boom") (.otherExc "boom") (.otherExc "boom")
      rfl rfl rfl),
   (claim_C6.2.1 String _ (.requestExc "boom") (.requestExc "boom") "body"
      rfl rfl rfl)⟩

/-- C7: a country whose member file is absent from the archive contributes
an empty CIDR list (KeyError is absorbed), and the built index is the one
built without that country: building completes and no range of that
country appears. -/
theorem claim_C7 (archive : TarArchive) (code : String) (codes : List String)
    (habs : extractfile archive ("./" ++ code ++ ".zone") = none) :
    download_ip_blocks archive code = [] ∧
    load_country_data archive codes =
      load_country_data archive (codes.filter (fun c => c ≠ code)) := by
  have hdl : download_ip_blocks archive code = [] := by
    simp only [download_ip_blocks, habs]
  refine ⟨hdl, ?_⟩
  unfold load_country_data
  congr 1
  induction codes with
  | nil => rfl
  | cons c cs ih =>
    by_cases hc : c = code
    · subst hc
      rw [List.flatMap_cons]
      have h1 : (if (download_ip_blocks archive c).isEmpty then ([] : List NetworkEntry)
          else networksOfCidrs c (download_ip_blocks archive c)) = [] := by
        rw [hdl]
        rfl
      rw [h1, List.nil_append, ih]
      have h2 : (c :: cs).filter (fun c' => c' ≠ c) = cs.filter (fun c' => c' ≠ c) := by
        rw [List.filter_cons]
        simp
      rw [h2]
    · have h2 : (c :: cs).filter (fun c' => c' ≠ code) =
          c :: cs.filter (fun c' => c' ≠ code) := by
        rw [List.filter_cons]
        simp [hc]
      rw [h2, List.flatMap_cons, List.flatMap_cons, ih]

/-- C7 (witness): the US/CA archive has no member for "zz", so an index
requested for the codes us, zz, ca equals the one for us, ca. -/
theorem claim_C7_witness :
    download_ip_blocks usCaArchive "zz" = [] ∧
    load_country_data usCaArchive ["us", "zz", "ca"] =
      load_country_data usCaArchive
        ((["us", "zz", "ca"] : List String).filter (fun c => c ≠ "zz")) :=
  claim_C7 usCaArchive "zz" ["us", "zz", "ca"] rfl

/-- C8: when the country-list download fails on all three attempts and the
final error is a RequestException, get_iso_country_codes catches it and
returns the empty list instead of propagating the error. -/
theorem claim_C8 (op : Nat → Except PyExc String) (e1 e2 : PyExc) (msg : String)
    (h1 : op 1 = .error e1) (h2 : op 2 = .error e2)
    (h3 : op 3 = .error (.requestExc msg)) :
    get_iso_country_codes op = .ok [] := by
  unfold get_iso_country_codes
  rw [retryRequest_three_errors h1 h2 h3]

/-- C8 (witness): a download that always fails with a network error yields
the empty code list. -/
theorem claim_C8_witness :
    get_iso_country_codes (fun _ => .error (.requestExc "connection refused")) =
      .ok [] :=
  claim_C8 _ (.requestExc "connection refused") (.requestExc "connection refused")
    "connection refused" rfl rfl rfl

/-- C9: the built index is sorted ascending by start address, and the
resolver method leaves the mapper object unchanged: no operation after
construction mutates NETWORK_MAP. -/
theorem claim_C9 :
    (∀ (archive : TarArchive) (codes : List String),
      ((CountryCidrMapper.init archive codes).NETWORK_MAP).Pairwise keyLe) ∧
    (∀ (mapper : CountryCidrMapper) (ip : String),
      (mapper.get_country_from_ip_st ip).1 = mapper) := by
  constructor
  · intro archive codes
    exact pySortedByKey_pairwise _
  · intro mapper ip
    rfl

/-- C10: on the empty index every valid IPv4 address resolves to
"UNKNOWN", and for every index and every queried value the candidate
indices the scan visits are all in range. -/
theorem claim_C10 :
    (∀ (s : String) (n : Nat), ip_address s = some (.v4 n) →
      get_country_from_ip [] s = "UNKNOWN") ∧
    (∀ (m : List NetworkEntry) (x j : Nat),
      j ∈ candidateIndices (bisect_right (m.map (fun item => item.1)) x) →
      j < m.length) := by
  constructor
  · intro s n hparse
    rw [get_country_from_ip_v4 hparse rfl]
    rfl
  · intro m x j hj
    have hji := mem_candidateIndices_lt hj
    have hlen := bisect_right_le_length (m.map (fun item => item.1)) x
    rw [List.length_map] at hlen
    omega

/-- C10 (witness): a concrete valid IPv4 address on the empty index. -/
theorem claim_C10_witness : get_country_from_ip [] "1.2.3.4" = "UNKNOWN" :=
  claim_C10.1 "1.2.3.4" 16909060 rfl

/-- C1 (counterexample): an address contained in exactly one loaded range
(the wide AA range) resolves to "UNKNOWN", because two narrower ranges of
other countries sit between that range and the binary-search insertion
point and only two candidates are ever checked. -/
theorem claim_C1_counterexample :
    ip_address "1.3.0.1" = some (.v4 16973825) ∧
    (nestedMap.filter (fun e => decide (entryContains e 16973825))).map
      (fun e => String.mk (entryCode e)) = ["AA"] ∧
    get_country_from_ip nestedMap "1.3.0.1" = "UNKNOWN" ∧
    get_country_from_ip nestedMap "1.3.0.1" ≠ "AA" := by
  decide

/-- C1 (amended): on an index whose ranges are separated (every earlier
range ends strictly before every later range starts, the specification's
own well-formedness assumption for country data), resolve returns the
country code of the range containing the queried IPv4 address. -/
theorem claim_C1_amended (m : List NetworkEntry) (s : String) (n k : Nat)
    (hwf : ∀ e ∈ m, WFEntry e)
    (hsep : Separated m)
    (hk : k < m.length)
    (hparse : ip_address s = some (.v4 n))
    (hcont : entryContains (m.getD k default) n) :
    get_country_from_ip m s = String.mk (entryCode (m.getD k default)) := by
  have hn32 := ip_address_v4_lt hparse
  obtain ⟨hkeyk, hwfk⟩ := hwf _ (getD_mem_of_lt hk)
  obtain ⟨hlo, hhi⟩ := hcont
  have hbis : bisect_right (m.map (fun item => item.1)) n = k + 1 := by
    apply bisect_right_eq_of_cut
    · rw [List.length_map]
      exact hk
    · intro j hj
      have hjlen : j < m.length := by omega
      rw [getD_map_key hjlen]
      rcases Nat.lt_or_ge j k with hjk | hjk
      · obtain ⟨hkeyj, hwfj⟩ := hwf _ (getD_mem_of_lt hjlen)
        have h1 : entryKey (m.getD j default) ≤
            (entryNet (m.getD j default)).broadcastInt := by
          rw [hkeyj]
          exact network_address_le_broadcastInt hwfj
        have h2 := hsep k hk j hjk
        omega
      · have hjk' : j = k := by omega
        subst hjk'
        exact hlo
    · intro j hjge hjlen
      rw [List.length_map] at hjlen
      rw [getD_map_key hjlen]
      have h2 := hsep j hjlen k (by omega)
      omega
  rw [get_country_from_ip_v4 hparse hbis]
  have htrue : ipInNetwork (.v4 n) (entryNet (m.getD k default)) = true := by
    rw [ipInNetwork_iff hwfk hn32]
    refine ⟨?_, hhi⟩
    rw [← hkeyk]
    exact hlo
  rcases Nat.lt_or_ge k 1 with hk1 | hk1
  · have hk0 : k = 0 := by omega
    subst hk0
    rw [candidateIndices_one]
    rw [scanCandidates_cons_of_true htrue]
  · rw [candidateIndices_of_two_le (by omega)]
    have hsub1 : k + 1 - 2 = k - 1 := by omega
    have hsub2 : k + 1 - 1 = k := by omega
    rw [hsub1, hsub2]
    have hfalse : ipInNetwork (.v4 n) (entryNet (m.getD (k - 1) default)) = false := by
      obtain ⟨hkeyj, hwfj⟩ := hwf _ (getD_mem_of_lt (j := k - 1) (by omega))
      cases hb : ipInNetwork (.v4 n) (entryNet (m.getD (k - 1) default)) with
      | false => rfl
      | true =>
        have hint := (ipInNetwork_iff hwfj hn32).mp hb
        have h2 := hsep k hk (k - 1) (by omega)
        exfalso
        omega
    rw [scanCandidates_cons_of_false hfalse, scanCandidates_cons_of_true htrue]

/-- C1 (witness): the specification scenario on the US/CA index:
"1.0.0.5" is contained in the range at index 0 and resolves to its code
"US". -/
theorem claim_C1_witness :
    entryContains (usCaMap.getD 0 default) 16777221 ∧
    get_country_from_ip usCaMap "1.0.0.5" = "US" :=
  ⟨by decide,
   (claim_C1_amended usCaMap "1.0.0.5" 16777221 0 (by decide) (by decide)
      (by decide) rfl (by decide)).trans (by decide)⟩

/-- C2 (counterexample): when the ranges at both candidate slots contain
the queried address, resolve returns the code of the range at index i - 2,
not the one at index i - 1 as the claim states: the loop
for j in range(max(0, i - 2), i) runs in ascending index order. -/
theorem claim_C2_counterexample :
    ip_address "1.0.0.5" = some (.v4 16777221) ∧
    bisect_right (overlapMap.map (fun item => item.1)) 16777221 = 2 ∧
    ipInNetwork (.v4 16777221) (entryNet (overlapMap.getD 0 default)) = true ∧
    ipInNetwork (.v4 16777221) (entryNet (overlapMap.getD 1 default)) = true ∧
    String.mk (entryCode (overlapMap.getD 1 default)) = "BB" ∧
    get_country_from_ip overlapMap "1.0.0.5" = "AA" ∧
    ("AA" : String) ≠ "BB" := by
  decide

/-- C2 (amended): with i the bisect_right insertion point and i at least 2,
the resolver checks index i - 2 first and i - 1 second (ascending index
order) and returns the code of the first of these whose range contains the
address; in particular when both contain it, the code at index i - 2 is
returned. -/
theorem claim_C2_amended (m : List NetworkEntry) (s : String) (n i : Nat)
    (hparse : ip_address s = some (.v4 n))
    (hi : bisect_right (m.map (fun item => item.1)) n = i)
    (h2 : 2 ≤ i) :
    (ipInNetwork (.v4 n) (entryNet (m.getD (i - 2) default)) = true →
      get_country_from_ip m s = String.mk (entryCode (m.getD (i - 2) default))) ∧
    (ipInNetwork (.v4 n) (entryNet (m.getD (i - 2) default)) = false →
      ipInNetwork (.v4 n) (entryNet (m.getD (i - 1) default)) = true →
      get_country_from_ip m s = String.mk (entryCode (m.getD (i - 1) default))) := by
  rw [get_country_from_ip_v4 hparse hi, candidateIndices_of_two_le h2]
  constructor
  · intro htrue
    rw [scanCandidates_cons_of_true htrue]
  · intro hfalse htrue
    rw [scanCandidates_cons_of_false hfalse, scanCandidates_cons_of_true htrue]

/-- C2 (witness): on the overlapping index both candidates contain the
address and the code at index i - 2 is returned. -/
theorem claim_C2_witness :
    ipInNetwork (.v4 16777221) (entryNet (overlapMap.getD 0 default)) = true ∧
    get_country_from_ip overlapMap "1.0.0.5" =
      String.mk (entryCode (overlapMap.getD 0 default)) :=
  ⟨by decide,
   (claim_C2_amended overlapMap "1.0.0.5" 16777221 2 rfl (by decide)
      (by decide)).1 (by decide)⟩

end ApacheAccessSummarizer
